import Mathlib

/-!
Shallow embedding of `bookkeeper/repository/sqlite_repository.py`
(class `SqliteRepository`), the generic object-relational repository of
the bookkeeper project, together with proofs of the specification
claims about it.

Modelling conventions:
* Python attribute dictionaries (`vars(obj)` / keyword-argument dicts)
  are association lists `List (String × PyVal)` in declaration order.
* SQLite storage cells are `Cell` (NULL / INTEGER / REAL / TEXT).
  A TEXT cell is represented by its provenance (`TextVal`): a plain
  Python string, an `isoformat` timestamp, or a `json.dumps` document;
  `renderText` recovers the concrete character data.  SQLite stores and
  returns TEXT byte-for-byte, and `datetime.fromisoformat` /
  `json.loads` are the standard library's inverses of `isoformat` /
  `json.dumps`, so parsing a cell is modelled by reading the tag.
* Python `float` values never undergo arithmetic in this code path
  (they are bound and returned unchanged), so they are carried by an
  opaque `Rat` stand-in.
* A raised Python exception is an `Except.error`; the distinct
  exception classes of the source map to distinct `RepoError`
  constructors.
-/

namespace Bookkeeper

/-- A calendar timestamp, modelling Python `datetime.datetime`
(the fields that `isoformat` serializes). -/
structure DT where
  year : Nat
  month : Nat
  day : Nat
  hour : Nat
  minute : Nat
  second : Nat
  micro : Nat
deriving DecidableEq, Repr

/-- JSON documents, the data model shared by `json.dumps` and
`json.loads`.  Numbers are restricted to integers: the repository's
models never store fractional JSON numbers, and Python round-trips
integers through JSON exactly. -/
inductive Json where
  | null : Json
  | bool (b : Bool) : Json
  | int (n : Int) : Json
  | str (s : String) : Json
  | arr (elems : List Json) : Json
  | obj (fields : List (String × Json)) : Json

mutual

/-- Structural equality of JSON documents. -/
def Json.beq : Json → Json → Bool
  | .null, .null => true
  | .bool a, .bool b => a == b
  | .int a, .int b => a == b
  | .str a, .str b => a == b
  | .arr as, .arr bs => Json.beqList as bs
  | .obj as, .obj bs => Json.beqObj as bs
  | _, _ => false

/-- Structural equality of JSON arrays. -/
def Json.beqList : List Json → List Json → Bool
  | [], [] => true
  | a :: as, b :: bs => Json.beq a b && Json.beqList as bs
  | _, _ => false

/-- Structural equality of JSON object field lists. -/
def Json.beqObj : List (String × Json) → List (String × Json) → Bool
  | [], [] => true
  | (k1, v1) :: as, (k2, v2) :: bs => k1 == k2 && Json.beq v1 v2 && Json.beqObj as bs
  | _, _ => false

end

mutual

theorem Json.beq_refl : (j : Json) → Json.beq j j = true
  | .null => rfl
  | .bool b => by simp [Json.beq]
  | .int n => by simp [Json.beq]
  | .str s => by simp [Json.beq]
  | .arr as => by simp [Json.beq, Json.beqList_refl as]
  | .obj as => by simp [Json.beq, Json.beqObj_refl as]

theorem Json.beqList_refl : (as : List Json) → Json.beqList as as = true
  | [] => rfl
  | a :: as => by simp [Json.beqList, Json.beq_refl a, Json.beqList_refl as]

theorem Json.beqObj_refl : (as : List (String × Json)) → Json.beqObj as as = true
  | [] => rfl
  | (k, v) :: as => by simp [Json.beqObj, Json.beq_refl v, Json.beqObj_refl as]

end

/-- Runtime Python values that can appear as attribute values of a
model instance handled by the repository. -/
inductive PyVal where
  | int (n : Int) : PyVal
  | float (q : Rat) : PyVal
  | str (s : String) : PyVal
  | bool (b : Bool) : PyVal
  | none : PyVal
  | dt (d : DT) : PyVal
  | obj (j : Json) : PyVal

/-- The character data held by a TEXT storage cell, tagged by its
provenance; `renderText` yields the concrete string. -/
inductive TextVal where
  | plain (s : String) : TextVal
  | iso (d : DT) : TextVal
  | json (j : Json) : TextVal

/-- An SQLite storage cell. -/
inductive Cell where
  | null : Cell
  | int (n : Int) : Cell
  | real (q : Rat) : Cell
  | text (t : TextVal) : Cell

/-- Left-pad the decimal rendering of a number with zeroes. -/
def padNum (width n : Nat) : String :=
  let s := toString n
  String.mk (List.replicate (width - s.length) '0') ++ s

/-- `datetime.isoformat()`: `YYYY-MM-DDTHH:MM:SS[.ffffff]`, the
microseconds omitted when zero. -/
def isoString (d : DT) : String :=
  padNum 4 d.year ++ "-" ++ padNum 2 d.month ++ "-" ++ padNum 2 d.day ++ "T" ++
    padNum 2 d.hour ++ ":" ++ padNum 2 d.minute ++ ":" ++ padNum 2 d.second ++
    (if d.micro == 0 then "" else "." ++ padNum 6 d.micro)

/-- One hexadecimal digit. -/
def hexDigit (n : Nat) : Char :=
  (String.toList "0123456789abcdef").getD n '0'

/-- Four-digit hexadecimal rendering, as in JSON `\uXXXX` escapes. -/
def hex4 (n : Nat) : String :=
  String.mk [hexDigit (n / 4096 % 16), hexDigit (n / 256 % 16),
             hexDigit (n / 16 % 16), hexDigit (n % 16)]

/-- Escape one character the way `json.dumps` (with the default
`ensure_ascii=True`) does inside a string literal. -/
def escapeChar (c : Char) : String :=
  if c = '"' then "\\\""
  else if c = '\\' then "\\\\"
  else if c = '\n' then "\\n"
  else if c = '\t' then "\\t"
  else if c = '\r' then "\\r"
  else if c.val < 32 ∨ c.val > 126 then
    if c.val ≤ 65535 then "\\u" ++ hex4 c.toNat
    else
      let v := c.toNat - 65536
      "\\u" ++ hex4 (55296 + v / 1024) ++ "\\u" ++ hex4 (56320 + v % 1024)
  else String.mk [c]

/-- Render a JSON string literal as `json.dumps` does. -/
def escapeString (s : String) : String :=
  "\"" ++ String.join (s.toList.map escapeChar) ++ "\""

mutual

/-- `json.dumps` with its default separators. -/
def Json.dump : Json → String
  | .null => "null"
  | .bool true => "true"
  | .bool false => "false"
  | .int n => toString n
  | .str s => escapeString s
  | .arr as => "[" ++ Json.dumpList as ++ "]"
  | .obj as => "\x7b" ++ Json.dumpObj as ++ "\x7d"

/-- Comma-separated rendering of JSON array elements. -/
def Json.dumpList : List Json → String
  | [] => ""
  | [a] => Json.dump a
  | a :: as => Json.dump a ++ ", " ++ Json.dumpList as

/-- Comma-separated rendering of JSON object fields. -/
def Json.dumpObj : List (String × Json) → String
  | [] => ""
  | [(k, v)] => escapeString k ++ ": " ++ Json.dump v
  | (k, v) :: as => escapeString k ++ ": " ++ Json.dump v ++ ", " ++ Json.dumpObj as

end

/-- The concrete character data of a TEXT cell. -/
def renderText : TextVal → String
  | .plain s => s
  | .iso d => isoString d
  | .json j => Json.dump j

/-- `datetime.fromisoformat` applied to a TEXT cell: an `isoformat`
product parses back to the timestamp it came from; a `json.dumps`
document or a plain attribute string is not in `isoformat` shape and
raises `ValueError` (`Option.none` here).  (A plain Python string that
happens to be a valid isoformat literal could only reach this parse
under a `datetime` type hint, which no claim's instances produce.) -/
def fromIso : TextVal → Option DT
  | .iso d => some d
  | _ => Option.none

/-- `json.loads` applied to a TEXT cell: a `json.dumps` product parses
back to its document; an `isoformat` timestamp is not valid JSON and
raises `JSONDecodeError` (`Option.none`).  A plain attribute string is
likewise modelled as failing to parse: such a cell meets `json.loads`
only for instances that are ill-typed for their shape, outside every
claim. -/
def jsonLoads : TextVal → Option Json
  | .json j => some j
  | _ => Option.none

/-- ASCII lower-casing of one character, the behaviour of Python's
`str.lower` on the ASCII class names this code handles. -/
def lowerChar (c : Char) : Char :=
  if c.val ≥ 65 && c.val ≤ 90 then Char.ofNat (c.toNat + 32) else c

/-- `str.lower()` (ASCII), used on `model_class.__name__` to derive
the table name. -/
def lowerString (s : String) : String :=
  String.mk (s.data.map lowerChar)

/-- `key.startswith('_')`: whether the first character is an
underscore. -/
def startsWithUnderscore (k : String) : Bool :=
  match k.data with
  | [] => false
  | c :: _ => c == '_'

/-- The declared type hints the repository distinguishes
(`_create_table` / `_row_to_object` branch on exactly these classes of
hints).  `other` stands for any non-class hint with no special
handling (e.g. `list[str]`), the case that takes the JSON branch. -/
inductive FieldType where
  | int : FieldType
  | float : FieldType
  | str : FieldType
  | bool : FieldType
  | datetime : FieldType
  | opt (inner : FieldType) : FieldType
  | other : FieldType
deriving DecidableEq, Repr

/-- Whether a hint is a Python class (`isinstance(hint, type)`), the
test `_row_to_object` uses to decide between pass-through and the JSON
branch. -/
def isClassHint : FieldType → Bool
  | .int | .float | .str | .bool | .datetime => true
  | .opt _ | .other => false

/-- A model instance's attribute dictionary (`vars(obj)`), in
declaration order.  The model covers instances whose attributes are all
instance attributes, so that `getattr` and `vars` agree — true of every
instance the claims quantify over. -/
abbrev Obj := List (String × PyVal)

/-- A model class as the repository sees it: its `__name__`, the merged
type hints (`get_type_hints` plus `__slots__` plus `__annotations__`,
already combined, in declaration order), its keyword constructor
`model_class(**d)` (`Option.none` models a `TypeError` for a
rejected signature), and the attribute dictionary of a
default-constructed instance `model_class()`. -/
structure Shape where
  name : String
  hints : List (String × FieldType)
  ctorKw : List (String × PyVal) → Option Obj
  defaultNew : Obj

/-- The type hints `_create_table` and `_row_to_object` work from,
including the source's special case that pads the hints of the test
class whose table is named `custom` with `name`, `test` and `pk`. -/
def typeHintsOf (s : Shape) : List (String × FieldType) :=
  let h0 := s.hints
  if lowerString s.name == "custom" then
    let h1 := if (List.lookup "name" h0).isNone then h0 ++ [("name", FieldType.str)] else h0
    let h2 := if (List.lookup "test" h1).isNone then h1 ++ [("test", FieldType.str)] else h1
    if (List.lookup "pk" h2).isNone then h2 ++ [("pk", FieldType.int)] else h2
  else h0

/-- The SQLite column type `_create_table` chooses for a non-`pk`
hint. -/
def sqlTypeOf : FieldType → String
  | .int => "INTEGER"
  | .float => "REAL"
  | .str => "TEXT"
  | .bool => "INTEGER"
  | .datetime => "TEXT"
  | .opt inner =>
    match inner with
    | .int => "INTEGER"
    | .str => "TEXT"
    | _ => "TEXT"
  | .other => "TEXT"

/-- The `(name, column type)` list of the `CREATE TABLE` statement,
including the fallback to a lone `pk` column when the hints are
empty. -/
def tableColumns (s : Shape) : List (String × String) :=
  if (typeHintsOf s).isEmpty then [("pk", "INTEGER PRIMARY KEY")]
  else (typeHintsOf s).map fun p =>
    if p.1 == "pk" then (p.1, "INTEGER PRIMARY KEY") else (p.1, sqlTypeOf p.2)

/-- All column names of the shape's table. -/
def allCols (s : Shape) : List String :=
  (tableColumns s).map Prod.fst

/-- The non-`pk` column names of the shape's table. -/
def nonPkCols (s : Shape) : List String :=
  (allCols s).filter (fun c => c != "pk")

/-- One stored table row: the store-assigned `pk` (the
`INTEGER PRIMARY KEY`, an alias of SQLite's rowid) and the non-`pk`
columns in schema order. -/
structure Row where
  pk : Int
  data : List (String × Cell)

/-- The rows of the shape's table, in storage (insertion) order. -/
abbrev Table := List Row

/-- The columns of a row as `SELECT *` returns them.  (The source
places `pk` at its declaration position; since every consumer keys the
columns by name, the model lists it first.) -/
def rowCells (r : Row) : List (String × Cell) :=
  ("pk", Cell.int r.pk) :: r.data

/-- The cell stored in a named column of a row. -/
def rowLookup (r : Row) (k : String) : Option Cell :=
  List.lookup k (rowCells r)

/-- The conversion `_object_to_dict` applies to one attribute value,
composed with the `sqlite3` parameter binding of the resulting
primitive (`bool` binds as 0/1, `datetime` was already turned into its
`isoformat` string, complex values into their `json.dumps` string). -/
def pyToCell : PyVal → Cell
  | .dt d => .text (.iso d)
  | .int n => .int n
  | .float q => .real q
  | .str s => .text (.plain s)
  | .bool b => .int (if b then 1 else 0)
  | .none => .null
  | .obj j => .text (.json j)

/-- `_object_to_dict`: enumerate the instance's attributes, skip
leading-underscore names, convert each value (composed here with the
parameter binding, see `pyToCell`). -/
def objectToDict (o : Obj) : List (String × Cell) :=
  (o.filter fun p => !startsWithUnderscore p.1).map fun p => (p.1, pyToCell p.2)

/-- The numeric view Python's `==` uses across `int`, `bool` and
`float` (`True == 1`, `1 == 1.0`). -/
def numView : PyVal → Option Rat
  | .int n => some (n : Rat)
  | .bool b => some (if b then 1 else 0)
  | .float q => some q
  | _ => Option.none

/-- Python `==` on the modelled value universe.  On `obj` values it is
structural JSON equality, a sound under-approximation of Python's deep
`==` (structurally equal documents are Python-equal). -/
def pyEq (a b : PyVal) : Bool :=
  match numView a, numView b with
  | some x, some y => x == y
  | _, _ =>
    match a, b with
    | .str s, .str t => s == t
    | .none, .none => true
    | .dt d, .dt e => d == e
    | .obj x, .obj y => Json.beq x y
    | _, _ => false

/-- `getattr(obj, k)` restricted to instance attributes. -/
def objGet (o : Obj) (k : String) : Option PyVal :=
  List.lookup k o

/-- `setattr(obj, k, v)`: overwrite the attribute if present, append it
otherwise. -/
def objSet (o : Obj) (k : String) (v : PyVal) : Obj :=
  match o with
  | [] => [(k, v)]
  | p :: rest => if p.1 == k then (k, v) :: rest else p :: objSet rest k v

/-- Assign a list of attributes in order (`for key, value in
init_dict.items(): setattr(obj, key, value)`). -/
def setAttrs (base : Obj) (kvs : List (String × PyVal)) : Obj :=
  kvs.foldl (fun o p => objSet o p.1 p.2) base

/-- The Python exceptions the repository's operations can raise. -/
inductive RepoError where
  /-- `ValueError` from the `pk` precondition of `add` / `update`. -/
  | invalidState : RepoError
  /-- `KeyError` from `delete` on a missing identifier. -/
  | notFound : RepoError
  /-- An error raised by the sqlite3 layer (unknown column in a query,
  unbindable parameter). -/
  | storageFailure : RepoError
  /-- `ValueError` from `datetime.fromisoformat` while converting a row
  back to an object. -/
  | conversionFailure : RepoError
  /-- `KeyError` from `obj_dict.pop` in `update`. -/
  | internalFailure : RepoError
deriving DecidableEq, Repr

/-- The largest `pk` currently in the table (0 when empty). -/
def maxPk (t : Table) : Int :=
  t.foldl (fun m r => max m r.pk) 0

/-- The rowid SQLite assigns to the next insert into an
`INTEGER PRIMARY KEY` table declared without `AUTOINCREMENT`: one more
than the largest rowid currently in use, 1 for an empty table.  (The
near-overflow randomized fallback is out of the model; repository
tables only ever hold the positive rowids this assignment produces.) -/
def newPk (t : Table) : Int :=
  maxPk t + 1

/-- `add`'s precondition test `getattr(obj, 'pk', None) != 0`: a
missing attribute reads as `None`, which is `!= 0`. -/
def pyNeZeroOrMissing : Option PyVal → Bool
  | Option.none => true
  | some v => !pyEq v (.int 0)

/-- `update`'s precondition test `getattr(obj, 'pk', 0) == 0`: a
missing attribute reads as `0`, which `== 0`. -/
def pyEqZeroOrMissing : Option PyVal → Bool
  | Option.none => true
  | some v => pyEq v (.int 0)

/-- `SqliteRepository.add`: reject a non-zero (or missing) `pk`,
convert the instance to a column dictionary, drop `pk` from it, insert
a row (columns not mentioned by the dictionary store NULL; an empty
dictionary yields `INSERT INTO t () VALUES ()`, which SQLite rejects,
and a dictionary key that is not a table column is an sqlite3 error),
commit,
read `cursor.lastrowid`, write it into the instance's `pk` attribute
and return it.  The returned triple is (assigned pk, table after the
insert, mutated instance). -/
def add (s : Shape) (t : Table) (o : Obj) : Except RepoError (Int × Table × Obj) :=
  if pyNeZeroOrMissing (objGet o "pk") then .error .invalidState
  else
    let d := (objectToDict o).filter fun p => p.1 != "pk"
    if d.isEmpty then .error .storageFailure
    else if d.any (fun p => !(nonPkCols s).contains p.1) then .error .storageFailure
    else
      let pk := newPk t
      let row : Row := ⟨pk, (nonPkCols s).map fun c => (c, (List.lookup c d).getD Cell.null)⟩
      .ok (pk, t ++ [row], objSet o "pk" (.int pk))

/-- The conversion `_row_to_object` applies to one cell after Optional
unwrapping: `fromisoformat` for a `datetime` hint on text, the
`json.loads`-with-raw-text-fallback probe for a non-class hint on
text, pass-through otherwise.  `Option.none` is a raised
`ValueError`. -/
def convertInner (h : FieldType) (c : Cell) : Option PyVal :=
  match h, c with
  | .datetime, .text t => (fromIso t).map PyVal.dt
  | h, .text t =>
    if isClassHint h then some (.str (renderText t))
    else
      match jsonLoads t with
      | some j => some (.obj j)
      | Option.none => some (.str (renderText t))
  | _, .null => some .none
  | _, .int n => some (.int n)
  | _, .real q => some (.float q)

/-- The full per-cell conversion of `_row_to_object`: a NULL under an
`Optional[X]` hint becomes `None`, otherwise the hint is unwrapped to
`X` and converted by `convertInner`. -/
def convertCell (h : FieldType) (c : Cell) : Option PyVal :=
  match h with
  | .opt inner =>
    match c with
    | .null => some .none
    | c => convertInner inner c
  | h => convertInner h c

/-- The raw Python value `sqlite3` returns for a stored cell, used for
columns with no declared type hint. -/
def rawCell : Cell → PyVal
  | .null => .none
  | .int n => .int n
  | .real q => .float q
  | .text t => .str (renderText t)

/-- The conversion `_row_to_object` applies to one named column: a
column with a declared hint goes through `convertCell`, a column
absent from the hints passes through as its raw stored value. -/
def convOne (hints : List (String × FieldType)) (k : String) (c : Cell) : Option PyVal :=
  match List.lookup k hints with
  | some h => convertCell h c
  | Option.none => some (rawCell c)

/-- The conversion loop of `_row_to_object` over the row's columns;
`Option.none` is a raised exception. -/
def convertCells (hints : List (String × FieldType)) : List (String × Cell) → Option (List (String × PyVal))
  | [] => some []
  | p :: rest =>
    match convOne hints p.1 p.2 with
    | Option.none => Option.none
    | some v =>
      match convertCells hints rest with
      | Option.none => Option.none
      | some tail => some ((p.1, v) :: tail)

/-- `SqliteRepository._row_to_object`: convert every column, then
construct the instance — for the test shape whose table is named
`custom`, always default-construct and assign; otherwise try the
keyword constructor and fall back to default-construct-and-assign when
it raises `TypeError`. -/
def rowToObject (s : Shape) (r : Row) : Option Obj :=
  match convertCells (typeHintsOf s) (rowCells r) with
  | Option.none => Option.none
  | some init =>
    if lowerString s.name == "custom" then some (setAttrs s.defaultNew init)
    else
      match s.ctorKw init with
      | some o => some o
      | Option.none => some (setAttrs s.defaultNew init)

/-- `SqliteRepository.get`: `SELECT * WHERE pk = ?`, `fetchone`; `None`
when no row matches, otherwise the converted row. -/
def get (s : Shape) (t : Table) (pk : Int) : Except RepoError (Option Obj) :=
  match t.find? (fun r => r.pk == pk) with
  | Option.none => .ok Option.none
  | some r =>
    match rowToObject s r with
    | some o => .ok (some o)
    | Option.none => .error .conversionFailure

/-- SQLite's `=` between a stored cell and a bound value, for the
cell/value combinations repository-written tables produce (NULL
compares unequal to everything; TEXT compares by character data;
INTEGER and REAL compare numerically; column-affinity coercions of
mixed-type cells are outside the model). -/
def cellEq (a b : Cell) : Bool :=
  match a, b with
  | .null, _ => false
  | _, .null => false
  | .int m, .int n => m == n
  | .int m, .real q => (m : Rat) == q
  | .real q, .int m => q == (m : Rat)
  | .real p, .real q => p == q
  | .text u, .text v => renderText u == renderText v
  | _, _ => false

/-- The `sqlite3` binding of one `where` value passed to `get_all`: the
supported primitives bind as in `pyToCell` (a `datetime` through the
registered `isoformat` adapter); a structured value (dict/list) is not
bindable and raises `InterfaceError`. -/
def bindParam : PyVal → Option Cell
  | .obj _ => Option.none
  | v => some (pyToCell v)

/-- Whether a row satisfies the `WHERE` conjunction built by `get_all`:
every listed column's cell equals the bound value. -/
def rowMatches (r : Row) (w : List (String × Cell)) : Bool :=
  w.all fun p =>
    match rowLookup r p.1 with
    | some c => cellEq c p.2
    | Option.none => false

/-- Convert a list of rows, propagating a conversion failure
(`[self._row_to_object(row) for row in cursor.fetchall()]`). -/
def convertRows (s : Shape) (rs : List Row) : Except RepoError (List Obj) :=
  match rs.mapM (rowToObject s) with
  | some l => .ok l
  | Option.none => .error .conversionFailure

/-- `SqliteRepository.get_all`: without a filter, every row converted,
in storage order.  With a filter, build `WHERE k1 = ? AND k2 = ? ...`
from the filter's keys — an empty filter dict yields
`SELECT * FROM t WHERE ` (the joined condition list is empty), which
SQLite rejects; a key that is not a column of the table makes the
prepared statement fail (storage failure); an unbindable value fails
at binding — and return the matching rows converted. -/
def get_all (s : Shape) (t : Table) : Option (List (String × PyVal)) → Except RepoError (List Obj)
  | Option.none => convertRows s t
  | some w =>
    if w.isEmpty then .error .storageFailure
    else if w.any (fun p => !(allCols s).contains p.1) then .error .storageFailure
    else
      match w.mapM (fun p => (bindParam p.2).map fun c => (p.1, c)) with
      | Option.none => .error .storageFailure
      | some wc => convertRows s (t.filter fun r => rowMatches r wc)

/-- `UPDATE ... SET` applied to one row's columns: columns listed in
the set dictionary take their new cell, the rest keep theirs. -/
def applySet (data d : List (String × Cell)) : List (String × Cell) :=
  data.map fun p =>
    match List.lookup p.1 d with
    | some c => (p.1, c)
    | Option.none => p

/-- `SqliteRepository.update`: reject a zero (or missing) `pk`
attribute, convert the instance, pop `pk` from the dictionary (a
`KeyError` if the conversion produced no `pk` entry), and run
`UPDATE ... SET <non-pk columns> WHERE pk = ?` (with no non-`pk`
column the generated SET clause is empty and SQLite rejects the
statement) — every row whose `pk`
equals the bound value is overwritten on the listed columns, every
other row is untouched, and zero matching rows is a silent no-op. -/
def update (s : Shape) (t : Table) (o : Obj) : Except RepoError Table :=
  if pyEqZeroOrMissing (objGet o "pk") then .error .invalidState
  else
    let d0 := objectToDict o
    match List.lookup "pk" d0 with
    | Option.none => .error .internalFailure
    | some pkc =>
      let d := d0.filter fun p => p.1 != "pk"
      if d.isEmpty then .error .storageFailure
      else if d.any (fun p => !(nonPkCols s).contains p.1) then .error .storageFailure
      else .ok (t.map fun r => if cellEq pkc (Cell.int r.pk) then ⟨r.pk, applySet r.data d⟩ else r)

/-- `SqliteRepository.delete`: look the row up via `self.get(pk)` (so a
conversion failure propagates), raise `KeyError` when absent, otherwise
`DELETE ... WHERE pk = ?`. -/
def delete (s : Shape) (t : Table) (pk : Int) : Except RepoError Table :=
  match get s t pk with
  | .error e => .error e
  | .ok Option.none => .error .notFound
  | .ok (some _) => .ok (t.filter fun r => r.pk != pk)

/-- Key lists without duplicates (decidably). -/
def nodupKeys : List String → Bool
  | [] => true
  | k :: rest => !rest.contains k && nodupKeys rest

/-- A runtime value inhabiting a non-Optional declared type: the
"compatible runtime type" of the specification's data model. -/
def nonNullTyped : FieldType → PyVal → Bool
  | .int, .int _ => true
  | .float, .float _ => true
  | .str, .str _ => true
  | .bool, .bool _ => true
  | .datetime, .dt _ => true
  | .other, .obj _ => true
  | _, _ => false

/-- A runtime value inhabiting a declared type, `None` being legal
exactly under `Optional[X]`. -/
def wellTypedVal : FieldType → PyVal → Bool
  | .opt _, .none => true
  | .opt inner, v => nonNullTyped inner v
  | h, v => nonNullTyped h v

/-- A well-formed declared shape: distinct attribute names, a `pk`
attribute of integer type, no private-convention (leading-underscore)
attribute names — private attributes are never persisted, so a shape
declaring one could not round-trip by design — and at least one
non-`pk` attribute (a shape with none cannot be written at all: the
generated INSERT and UPDATE statements are syntactically invalid). -/
def wfShape (s : Shape) : Bool :=
  nodupKeys ((typeHintsOf s).map Prod.fst) &&
  (match List.lookup "pk" (typeHintsOf s) with
   | some FieldType.int => true
   | _ => false) &&
  ((typeHintsOf s).all fun q => !startsWithUnderscore q.1) &&
  !(nonPkCols s).isEmpty

/-- An instance conforming to its declared shape: every declared
attribute is present with a value of the declared type, and every
instance attribute is a declared one. -/
def wfObj (s : Shape) (o : Obj) : Bool :=
  ((typeHintsOf s).all fun q =>
    match List.lookup q.1 o with
    | some v => wellTypedVal q.2 v
    | Option.none => false) &&
  o.all fun p => ((typeHintsOf s).map Prod.fst).contains p.1

/-- A keyword constructor that builds exactly the instance described by
its keyword arguments — the behaviour of the standard (dataclass-style)
constructor of a plain attribute-bag model. -/
def FaithfulCtor (s : Shape) : Prop :=
  ∀ d o, s.ctorKw d = some o → ∀ k, List.lookup k o = List.lookup k d

section AssocLemmas

variable {α β γ : Type} [BEq α] [LawfulBEq α]

theorem lookup_map_key (f : α → β) (l : List α) (k : α) :
    List.lookup k (l.map fun c => (c, f c)) = if k ∈ l then some (f k) else Option.none := by
  induction l with
  | nil => simp [List.lookup]
  | cons c rest ih =>
    by_cases hk : k = c
    · subst hk; simp [List.lookup, ih]
    · have hkk : (k == c) = false := beq_eq_false_iff_ne.mpr hk
      simp [List.lookup, hkk, ih, hk]

theorem find?_append_of_none {δ : Type} (p : δ → Bool) (l1 l2 : List δ)
    (h : l1.find? p = Option.none) :
    (l1 ++ l2).find? p = l2.find? p := by
  induction l1 with
  | nil => simp
  | cons a rest ih =>
    cases hp : p a
    · simp only [List.cons_append, List.find?_cons, hp] at h ⊢
      exact ih h
    · simp [List.find?_cons, hp] at h

end AssocLemmas

theorem nodupKeys_iff (l : List String) : nodupKeys l = true ↔ l.Nodup := by
  induction l with
  | nil => simp [nodupKeys]
  | cons k rest ih =>
    simp [nodupKeys, List.nodup_cons, ih, List.elem_iff]

section MoreAssoc

variable {α β : Type} [BEq α] [LawfulBEq α]

theorem mem_of_lookup_eq_some {l : List (α × β)} {k : α} {v : β}
    (h : List.lookup k l = some v) : (k, v) ∈ l := by
  induction l with
  | nil => simp [List.lookup] at h
  | cons p rest ih =>
    obtain ⟨k1, v1⟩ := p
    cases hkk : k == k1
    · simp only [List.lookup, hkk] at h
      exact List.mem_cons_of_mem _ (ih h)
    · simp only [List.lookup, hkk] at h
      cases h
      exact (eq_of_beq hkk) ▸ List.mem_cons_self _ _

end MoreAssoc

theorem le_foldl_max (t : Table) (init : Int) :
    init ≤ t.foldl (fun m r => max m r.pk) init := by
  induction t generalizing init with
  | nil => simp
  | cons r rest ih =>
    simp only [List.foldl_cons]
    exact le_trans (le_max_left init r.pk) (ih (max init r.pk))

theorem mem_le_foldl_max (t : Table) (r : Row) (h : r ∈ t) (init : Int) :
    r.pk ≤ t.foldl (fun m x => max m x.pk) init := by
  induction t generalizing init with
  | nil => cases h
  | cons x rest ih =>
    rcases List.mem_cons.mp h with h1 | h2
    · subst h1
      simp only [List.foldl_cons]
      exact le_trans (le_max_right init r.pk) (le_foldl_max rest _)
    · simp only [List.foldl_cons]
      exact ih h2 _

/-- Every row already in the table has a strictly smaller `pk` than the
one the next insert receives. -/
theorem pk_lt_newPk (t : Table) (r : Row) (h : r ∈ t) : r.pk < newPk t :=
  lt_of_le_of_lt (mem_le_foldl_max t r h 0) (lt_add_one (maxPk t))

theorem convertCells_isSome (hints : List (String × FieldType)) (cells : List (String × Cell))
    (h : ∀ p ∈ cells, (convOne hints p.1 p.2).isSome) :
    ∃ init, convertCells hints cells = some init := by
  induction cells with
  | nil => exact ⟨[], rfl⟩
  | cons p rest ih =>
    obtain ⟨v, hv⟩ := Option.isSome_iff_exists.mp (h p (List.mem_cons_self _ _))
    obtain ⟨tail, htail⟩ := ih fun q hq => h q (List.mem_cons_of_mem _ hq)
    exact ⟨(p.1, v) :: tail, by simp [convertCells, hv, htail]⟩

theorem convertCells_lookup (hints : List (String × FieldType)) (cells : List (String × Cell))
    (init : List (String × PyVal)) (h : convertCells hints cells = some init) (k : String) :
    List.lookup k init = (List.lookup k cells).bind fun c => convOne hints k c := by
  induction cells generalizing init with
  | nil =>
    simp only [convertCells] at h
    cases h
    simp [List.lookup]
  | cons p rest ih =>
    simp only [convertCells] at h
    cases hc : convOne hints p.1 p.2 with
    | none => rw [hc] at h; cases h
    | some v =>
      rw [hc] at h
      cases hrest : convertCells hints rest with
      | none => rw [hrest] at h; cases h
      | some tail =>
        rw [hrest] at h
        cases h
        cases hkk : k == p.1
        · simp only [List.lookup, hkk]
          exact ih tail hrest
        · simp only [List.lookup, hkk, Option.bind]
          rw [eq_of_beq hkk]
          exact hc.symm

theorem convertCells_keys (hints : List (String × FieldType)) (cells : List (String × Cell))
    (init : List (String × PyVal)) (h : convertCells hints cells = some init) :
    init.map Prod.fst = cells.map Prod.fst := by
  induction cells generalizing init with
  | nil => simp only [convertCells] at h; cases h; rfl
  | cons p rest ih =>
    simp only [convertCells] at h
    cases hc : convOne hints p.1 p.2 with
    | none => rw [hc] at h; cases h
    | some v =>
      rw [hc] at h
      cases hrest : convertCells hints rest with
      | none => rw [hrest] at h; cases h
      | some tail =>
        rw [hrest] at h
        cases h
        simp [ih tail hrest]

theorem lookup_cons_self {β : Type} (k : String) (v : β) (l : List (String × β)) :
    List.lookup k ((k, v) :: l) = some v := by
  simp [List.lookup]

theorem lookup_cons_ne {β : Type} (k k1 : String) (v : β) (l : List (String × β))
    (h : (k == k1) = false) :
    List.lookup k ((k1, v) :: l) = List.lookup k l := by
  simp [List.lookup, h]

theorem objSet_lookup_self (o : Obj) (k : String) (v : PyVal) :
    List.lookup k (objSet o k v) = some v := by
  induction o with
  | nil => exact lookup_cons_self k v []
  | cons p rest ih =>
    obtain ⟨k1, v1⟩ := p
    cases hb : k1 == k
    · simp only [objSet, hb, Bool.false_eq_true, if_false]
      have hkk : (k == k1) = false := by
        rw [beq_eq_false_iff_ne] at hb ⊢
        exact Ne.symm hb
      rw [lookup_cons_ne _ _ _ _ hkk]
      exact ih
    · simp only [objSet, hb, if_true]
      exact lookup_cons_self k v rest

theorem objSet_lookup_other (o : Obj) (k k' : String) (v : PyVal) (h : k' ≠ k) :
    List.lookup k' (objSet o k v) = List.lookup k' o := by
  induction o with
  | nil =>
    simp only [objSet]
    rw [lookup_cons_ne _ _ _ _ (beq_eq_false_iff_ne.mpr h)]
  | cons p rest ih =>
    obtain ⟨k1, v1⟩ := p
    cases hb : k1 == k
    · simp only [objSet, hb, Bool.false_eq_true, if_false]
      cases hkk : k' == k1
      · rw [lookup_cons_ne _ _ _ _ hkk, lookup_cons_ne _ _ _ _ hkk]
        exact ih
      · rw [eq_of_beq hkk]
        rw [lookup_cons_self, lookup_cons_self]
    · simp only [objSet, hb, if_true]
      have hk1 : k1 = k := eq_of_beq hb
      subst hk1
      have hkk : (k' == k1) = false := beq_eq_false_iff_ne.mpr h
      rw [lookup_cons_ne _ _ _ _ hkk, lookup_cons_ne _ _ _ _ hkk]

theorem setAttrs_lookup_not_mem (base : Obj) (kvs : List (String × PyVal)) (k : String)
    (h : k ∉ kvs.map Prod.fst) :
    List.lookup k (setAttrs base kvs) = List.lookup k base := by
  induction kvs generalizing base with
  | nil => rfl
  | cons p rest ih =>
    simp only [List.map_cons, List.mem_cons] at h
    push_neg at h
    have hstep : setAttrs base (p :: rest) = setAttrs (objSet base p.1 p.2) rest := rfl
    rw [hstep, ih _ h.2, objSet_lookup_other _ _ _ _ h.1]

theorem setAttrs_lookup_mem (base : Obj) (kvs : List (String × PyVal)) (k : String) (v : PyVal)
    (hnd : (kvs.map Prod.fst).Nodup) (h : List.lookup k kvs = some v) :
    List.lookup k (setAttrs base kvs) = some v := by
  induction kvs generalizing base with
  | nil => simp [List.lookup] at h
  | cons p rest ih =>
    obtain ⟨k1, v1⟩ := p
    simp only [List.map_cons, List.nodup_cons] at hnd
    have hstep : setAttrs base ((k1, v1) :: rest) = setAttrs (objSet base k1 v1) rest := rfl
    rw [hstep]
    cases hkk : k == k1
    · simp only [List.lookup, hkk] at h
      exact ih (objSet base k1 v1) hnd.2 h
    · simp only [List.lookup, hkk] at h
      cases h
      rw [eq_of_beq hkk]
      rw [setAttrs_lookup_not_mem _ _ _ hnd.1]
      exact objSet_lookup_self base k1 v

/-- A value of a non-Optional declared type survives the
store-then-read conversion up to Python `==` (a `bool` comes back as
the integer 0/1 it was stored as, which Python-equals it). -/
theorem convertInner_pyToCell (h : FieldType) (v : PyVal) (hwt : nonNullTyped h v = true) :
    ∃ v2, convertInner h (pyToCell v) = some v2 ∧ pyEq v2 v = true := by
  cases h <;> cases v <;> (try exact absurd hwt (by exact Bool.false_ne_true))
  case int.int n => exact ⟨.int n, rfl, by simp [pyEq, numView]⟩
  case float.float q => exact ⟨.float q, rfl, by simp [pyEq, numView]⟩
  case str.str s => exact ⟨.str s, rfl, by simp [pyEq, numView]⟩
  case bool.bool b => cases b <;> exact ⟨_, rfl, by decide⟩
  case datetime.dt d => exact ⟨.dt d, rfl, by simp [pyEq, numView]⟩
  case other.obj j => exact ⟨.obj j, rfl, by simp [pyEq, numView, Json.beq_refl]⟩

/-- A value of any declared type (Optional included) survives the
store-then-read conversion up to Python `==`. -/
theorem convertCell_pyToCell (h : FieldType) (v : PyVal) (hwt : wellTypedVal h v = true) :
    ∃ v2, convertCell h (pyToCell v) = some v2 ∧ pyEq v2 v = true := by
  cases h with
  | opt inner =>
    cases v with
    | none => exact ⟨.none, rfl, by simp [pyEq, numView]⟩
    | int n => exact convertInner_pyToCell inner (.int n) hwt
    | float q => exact convertInner_pyToCell inner (.float q) hwt
    | str s => exact convertInner_pyToCell inner (.str s) hwt
    | bool b => exact convertInner_pyToCell inner (.bool b) hwt
    | dt d => exact convertInner_pyToCell inner (.dt d) hwt
    | obj j => exact convertInner_pyToCell inner (.obj j) hwt
  | int => exact convertInner_pyToCell _ v hwt
  | float => exact convertInner_pyToCell _ v hwt
  | str => exact convertInner_pyToCell _ v hwt
  | bool => exact convertInner_pyToCell _ v hwt
  | datetime => exact convertInner_pyToCell _ v hwt
  | other => exact convertInner_pyToCell _ v hwt

theorem wfShape_nodup {s : Shape} (hs : wfShape s = true) :
    ((typeHintsOf s).map Prod.fst).Nodup := by
  unfold wfShape at hs
  simp only [Bool.and_eq_true] at hs
  exact (nodupKeys_iff _).mp hs.1.1.1

theorem wfShape_pk {s : Shape} (hs : wfShape s = true) :
    List.lookup "pk" (typeHintsOf s) = some FieldType.int := by
  unfold wfShape at hs
  simp only [Bool.and_eq_true] at hs
  have h := hs.1.1.2
  cases hl : List.lookup "pk" (typeHintsOf s) with
  | none => rw [hl] at h; cases h
  | some ft =>
    rw [hl] at h
    cases ft <;> first | rfl | cases h

theorem wfShape_noUnderscore {s : Shape} (hs : wfShape s = true) :
    ∀ p ∈ typeHintsOf s, startsWithUnderscore p.1 = false := by
  unfold wfShape at hs
  simp only [Bool.and_eq_true, List.all_eq_true] at hs
  intro p hp
  have := hs.1.2 p hp
  simpa using this

theorem wfShape_hasNonPk {s : Shape} (hs : wfShape s = true) :
    (nonPkCols s).isEmpty = false := by
  unfold wfShape at hs
  simp only [Bool.and_eq_true] at hs
  have := hs.2
  simpa using this

theorem wfShape_nonempty {s : Shape} (hs : wfShape s = true) :
    typeHintsOf s ≠ [] := by
  intro h
  have := wfShape_pk hs
  rw [h] at this
  cases this

theorem map_fst_tableCols (l : List (String × FieldType)) :
    (l.map fun p =>
      if p.1 == "pk" then (p.1, "INTEGER PRIMARY KEY") else (p.1, sqlTypeOf p.2)).map Prod.fst =
      l.map Prod.fst := by
  induction l with
  | nil => rfl
  | cons p rest ih =>
    simp only [List.map_cons]
    cases hb : p.1 == "pk"
    · rw [if_neg (by simp [hb])]
      exact congrArg (List.cons p.1) ih
    · rw [if_pos rfl]
      exact congrArg (List.cons p.1) ih

/-- When the shape declares at least one attribute, the table's columns
are exactly the declared attribute names, in order. -/
theorem allCols_eq_keys {s : Shape} (h : typeHintsOf s ≠ []) :
    allCols s = (typeHintsOf s).map Prod.fst := by
  unfold allCols tableColumns
  cases hh : typeHintsOf s with
  | nil => exact absurd hh h
  | cons p rest =>
    rw [if_neg (by simp)]
    exact map_fst_tableCols (p :: rest)

theorem mem_nonPkCols_iff {s : Shape} (h : typeHintsOf s ≠ []) (k : String) :
    k ∈ nonPkCols s ↔ k ∈ (typeHintsOf s).map Prod.fst ∧ k ≠ "pk" := by
  unfold nonPkCols
  rw [allCols_eq_keys h, List.mem_filter]
  simp [bne_iff_ne]

theorem nonPkCols_nodup {s : Shape} (hs : wfShape s = true) :
    (nonPkCols s).Nodup := by
  unfold nonPkCols
  rw [allCols_eq_keys (wfShape_nonempty hs)]
  exact (wfShape_nodup hs).filter _

theorem pk_not_mem_nonPkCols (s : Shape) : "pk" ∉ nonPkCols s := by
  unfold nonPkCols
  intro h
  have := (List.mem_filter.mp h).2
  simp at this

theorem wfObj_typed {s : Shape} {o : Obj} (ho : wfObj s o = true) :
    ∀ k h, List.lookup k (typeHintsOf s) = some h →
      ∃ v, List.lookup k o = some v ∧ wellTypedVal h v = true := by
  unfold wfObj at ho
  simp only [Bool.and_eq_true, List.all_eq_true] at ho
  intro k h hk
  have hmem := mem_of_lookup_eq_some hk
  have := ho.1 (k, h) hmem
  cases hl : List.lookup k o with
  | none => rw [hl] at this; cases this
  | some v => rw [hl] at this; exact ⟨v, rfl, this⟩

theorem wfObj_keys {s : Shape} {o : Obj} (ho : wfObj s o = true) :
    ∀ p ∈ o, p.1 ∈ (typeHintsOf s).map Prod.fst := by
  unfold wfObj at ho
  simp only [Bool.and_eq_true, List.all_eq_true] at ho
  intro p hp
  have := ho.2 p hp
  exact List.elem_iff.mp this

theorem lookup_objectToDict (o : Obj) (k : String) (hk : startsWithUnderscore k = false) :
    List.lookup k (objectToDict o) = (List.lookup k o).map pyToCell := by
  induction o with
  | nil => simp [objectToDict, List.lookup]
  | cons p rest ih =>
    cases hu : startsWithUnderscore p.1
    · cases hkk : k == p.1
      · simp only [objectToDict, List.filter_cons, hu, Bool.not_false, if_true, List.map_cons]
        rw [lookup_cons_ne _ _ _ _ hkk, lookup_cons_ne _ _ _ _ hkk]
        exact ih
      · simp only [objectToDict, List.filter_cons, hu, Bool.not_false, if_true, List.map_cons]
        rw [eq_of_beq hkk]
        rw [lookup_cons_self, lookup_cons_self]
        rfl
    · cases hkk : k == p.1
      · simp only [objectToDict, List.filter_cons, hu, Bool.not_true, Bool.false_eq_true, if_false]
        rw [lookup_cons_ne _ _ _ _ hkk]
        exact ih
      · exact absurd (eq_of_beq hkk ▸ hu) (by simp [hk])

theorem lookup_filter_ne_pk {β : Type} (l : List (String × β)) (k : String) (hne : k ≠ "pk") :
    List.lookup k (l.filter fun p => p.1 != "pk") = List.lookup k l := by
  induction l with
  | nil => rfl
  | cons p rest ih =>
    cases hb : p.1 != "pk"
    · have hp : p.1 = "pk" := by simpa using hb
      have hkk : (k == p.1) = false := beq_eq_false_iff_ne.mpr (hp ▸ hne)
      simp only [List.filter_cons, hb, Bool.false_eq_true, if_false]
      rw [ih]
      exact (lookup_cons_ne _ _ _ _ hkk).symm
    · obtain ⟨k1, v1⟩ := p
      cases hkk : k == k1
      · simp only [List.filter_cons, hb, if_true]
        rw [lookup_cons_ne _ _ _ _ hkk, lookup_cons_ne _ _ _ _ hkk]
        exact ih
      · simp only [List.filter_cons, hb, if_true]
        rw [eq_of_beq hkk, lookup_cons_self, lookup_cons_self]

theorem lookup_insertDict (o : Obj) (k : String) (hk : startsWithUnderscore k = false)
    (hne : k ≠ "pk") :
    List.lookup k ((objectToDict o).filter fun p => p.1 != "pk") =
      (List.lookup k o).map pyToCell := by
  rw [lookup_filter_ne_pk _ _ hne]
  exact lookup_objectToDict o k hk

/-- The attribute dictionary `rowToObject` builds determines the
returned instance's attributes, through whichever construction path is
taken (keyword constructor, default-and-assign fallback, or the
`custom` special case). -/
theorem rowToObject_lookup {s : Shape} {r : Row} {init : List (String × PyVal)} {o : Obj}
    (hc : FaithfulCtor s)
    (hconv : convertCells (typeHintsOf s) (rowCells r) = some init)
    (hnd : (init.map Prod.fst).Nodup)
    (hro : rowToObject s r = some o) (k : String) (v : PyVal)
    (hk : List.lookup k init = some v) : List.lookup k o = some v := by
  unfold rowToObject at hro
  rw [hconv] at hro
  cases hcu : lowerString s.name == "custom"
  · rw [hcu] at hro
    simp only [Bool.false_eq_true, if_false] at hro
    cases hctor : s.ctorKw init with
    | none =>
      rw [hctor] at hro
      cases hro
      exact setAttrs_lookup_mem _ _ _ _ hnd hk
    | some o2 =>
      rw [hctor] at hro
      have h2 := hc init o2 hctor k
      rw [Option.some_inj.mp hro] at h2
      rw [h2]
      exact hk
  · rw [hcu] at hro
    simp only [if_true] at hro
    cases hro
    exact setAttrs_lookup_mem _ _ _ _ hnd hk

theorem lookup_isSome_of_mem_keys {α β : Type} [BEq α] [LawfulBEq α]
    {l : List (α × β)} {k : α} (h : k ∈ l.map Prod.fst) :
    (List.lookup k l).isSome := by
  induction l with
  | nil => simp at h
  | cons p rest ih =>
    simp only [List.map_cons, List.mem_cons] at h
    rcases h with h1 | h2
    · subst h1
      simp [List.lookup]
    · cases hkk : k == p.1
      · simp only [List.lookup, hkk]
        exact ih h2
      · simp [List.lookup, hkk]

theorem map_fst_pairs {α β : Type} (l : List α) (f : α → β) :
    (l.map fun c => (c, f c)).map Prod.fst = l := by
  induction l with
  | nil => rfl
  | cons c rest ih => simp [ih]

/-- The row `add` inserts: the fresh `pk` plus, for every non-`pk`
column, the dictionary's converted value (NULL for a column the
dictionary does not mention). -/
def addRow (s : Shape) (t : Table) (o : Obj) : Row :=
  ⟨newPk t, (nonPkCols s).map fun c =>
    (c, (List.lookup c ((objectToDict o).filter fun p => p.1 != "pk")).getD Cell.null)⟩

/-- For a conforming instance, every key of the insert/update
dictionary (the converted attributes minus `pk`) is a column of the
shape's table, so the generated SQL names only existing columns. -/
theorem insertDict_keys_ok {s : Shape} {o : Obj} (hs : wfShape s = true)
    (ho : wfObj s o = true) :
    (((objectToDict o).filter fun p => p.1 != "pk").any
      fun p => !(nonPkCols s).contains p.1) = false := by
  rw [List.any_eq_false]
  intro p hp
  have hmem := List.mem_filter.mp hp
  have hne : p.1 ≠ "pk" := by simpa [bne_iff_ne] using hmem.2
  obtain ⟨q, hq, hqe⟩ := List.mem_map.mp hmem.1
  have hqo : q ∈ o := (List.mem_filter.mp hq).1
  have hk1 : q.1 ∈ (typeHintsOf s).map Prod.fst := wfObj_keys ho q hqo
  have hp1 : p.1 = q.1 := by rw [← hqe]
  have hmemn := (mem_nonPkCols_iff (wfShape_nonempty hs) p.1).mpr ⟨hp1 ▸ hk1, hne⟩
  simp only [List.elem_iff, Bool.not_eq_true]
  simp [hmemn]

/-- For a conforming instance of a well-formed shape, the insert/update
dictionary is non-empty (the shape declares a non-`pk` attribute and
the instance carries it), so the generated INSERT/UPDATE statement has
a non-empty column list. -/
theorem insertDict_nonempty {s : Shape} {o : Obj} (hs : wfShape s = true)
    (ho : wfObj s o = true) :
    ((objectToDict o).filter fun p => p.1 != "pk").isEmpty = false := by
  have hcols := wfShape_hasNonPk hs
  cases hnl : nonPkCols s with
  | nil => simp [hnl] at hcols
  | cons c rest =>
    have hc : c ∈ nonPkCols s := by
      rw [hnl]
      exact List.mem_cons_self _ _
    obtain ⟨hck, hcne⟩ := (mem_nonPkCols_iff (wfShape_nonempty hs) c).mp hc
    obtain ⟨hint, hhint⟩ := Option.isSome_iff_exists.mp (lookup_isSome_of_mem_keys hck)
    obtain ⟨v, hv, _⟩ := wfObj_typed ho c hint hhint
    have hunder : startsWithUnderscore c = false := by
      simpa using wfShape_noUnderscore hs (c, hint) (mem_of_lookup_eq_some hhint)
    have hlook : List.lookup c ((objectToDict o).filter fun p => p.1 != "pk") =
        some (pyToCell v) := by
      rw [lookup_insertDict o c hunder hcne, hv]
      rfl
    cases hdl : (objectToDict o).filter fun p => p.1 != "pk" with
    | nil => rw [hdl] at hlook; simp [List.lookup] at hlook
    | cons q rest2 => rfl

/-- For a well-formed shape and a conforming instance with `pk == 0`,
`add` succeeds and returns the fresh identifier, the table extended by
the converted row, and the instance with `pk` assigned. -/
theorem add_ok {s : Shape} {t : Table} {o : Obj} (hs : wfShape s = true) (ho : wfObj s o = true)
    (hpk : List.lookup "pk" o = some (.int 0)) :
    add s t o = .ok (newPk t, t ++ [addRow s t o], objSet o "pk" (.int (newPk t))) := by
  unfold add
  have h1 : pyNeZeroOrMissing (objGet o "pk") = false := by
    unfold objGet
    rw [hpk]
    simp [pyNeZeroOrMissing, pyEq, numView]
  rw [h1]
  simp only [Bool.false_eq_true, if_false]
  rw [insertDict_nonempty hs ho]
  simp only [Bool.false_eq_true, if_false]
  rw [insertDict_keys_ok hs ho]
  simp only [Bool.false_eq_true, if_false]
  rfl

/-- Looking the fresh row up by its new `pk` finds it (every earlier
row's `pk` is strictly smaller). -/
theorem find?_fresh_row (t : Table) (row : Row) (hrow : row.pk = newPk t) :
    (t ++ [row]).find? (fun r => r.pk == newPk t) = some row := by
  rw [find?_append_of_none]
  · simp [List.find?, hrow]
  · rw [List.find?_eq_none]
    intro x hx
    simp only [beq_iff_eq]
    exact ne_of_lt (pk_lt_newPk t x hx)

/-- Whenever column conversion succeeds, `_row_to_object` returns an
instance (every construction path produces one). -/
theorem rowToObject_isSome {s : Shape} {r : Row} {init : List (String × PyVal)}
    (hconv : convertCells (typeHintsOf s) (rowCells r) = some init) :
    ∃ o2, rowToObject s r = some o2 := by
  unfold rowToObject
  rw [hconv]
  cases hcu : lowerString s.name == "custom"
  · simp only [Bool.false_eq_true, if_false]
    cases hctor : s.ctorKw init
    · exact ⟨_, rfl⟩
    · exact ⟨_, rfl⟩
  · simp only [if_true]
    exact ⟨_, rfl⟩

/-- The round-trip property for one add-then-get exchange: `add`
succeeds, `get` of the assigned identifier returns an instance, and
every declared attribute of the returned instance is Python-equal to
the (pk-assigned) added instance's. -/
def RoundTrips (s : Shape) (t : Table) (o : Obj) : Prop :=
  ∃ pk t2 o2, add s t o = .ok (pk, t2, o2) ∧
    ∃ robj, get s t2 pk = .ok (some robj) ∧
      ∀ k h, List.lookup k (typeHintsOf s) = some h →
        ∃ u v, List.lookup k robj = some u ∧ List.lookup k o2 = some v ∧ pyEq u v = true

/-- C1: Round-trip law.  For a well-formed declared shape whose
standard constructor is a plain attribute-bag keyword constructor,
adding a conforming instance with `pk == 0` succeeds, and `get` of the
assigned identifier returns an instance whose every declared attribute
is Python-equal to the (pk-assigned) added instance's.  Timestamps are
recovered exactly (to the microsecond, hence in particular to the
second) and structurally-encoded attributes come back as structurally
equal JSON documents (hence deep-equal). -/
theorem add_get_roundtrip (s : Shape) (t : Table) (o : Obj)
    (hs : wfShape s = true) (hf : FaithfulCtor s) (ho : wfObj s o = true)
    (hpk : List.lookup "pk" o = some (.int 0)) :
    RoundTrips s t o := by
  refine ⟨newPk t, t ++ [addRow s t o], objSet o "pk" (.int (newPk t)), add_ok hs ho hpk, ?_⟩
  have hpkhint := wfShape_pk hs
  have hnonempty := wfShape_nonempty hs
  have hrowcells : rowCells (addRow s t o) =
      ("pk", Cell.int (newPk t)) :: (nonPkCols s).map
        (fun c => (c, (List.lookup c ((objectToDict o).filter fun p => p.1 != "pk")).getD
          Cell.null)) := rfl
  have hcol : ∀ c ∈ nonPkCols s, ∃ hc v, List.lookup c (typeHintsOf s) = some hc ∧
      List.lookup c o = some v ∧ wellTypedVal hc v = true ∧
      (List.lookup c ((objectToDict o).filter fun p => p.1 != "pk")).getD Cell.null =
        pyToCell v := by
    intro c hc
    obtain ⟨hck, hcne⟩ := (mem_nonPkCols_iff hnonempty c).mp hc
    obtain ⟨hint, hhint⟩ := Option.isSome_iff_exists.mp (lookup_isSome_of_mem_keys hck)
    obtain ⟨v, hv, hwt⟩ := wfObj_typed ho c hint hhint
    have hunder : startsWithUnderscore c = false := by
      simpa using wfShape_noUnderscore hs (c, hint) (mem_of_lookup_eq_some hhint)
    refine ⟨hint, v, hhint, hv, hwt, ?_⟩
    rw [lookup_insertDict o c hunder hcne, hv]
    rfl
  have hconvsome : ∀ p ∈ rowCells (addRow s t o),
      (convOne (typeHintsOf s) p.1 p.2).isSome := by
    intro p hp
    rw [hrowcells] at hp
    rcases List.mem_cons.mp hp with h1 | h2
    · subst h1
      simp only [convOne, hpkhint]
      rfl
    · obtain ⟨c, hcmem, hce⟩ := List.mem_map.mp h2
      obtain ⟨hint, v, hhint, hv, hwt, hcell⟩ := hcol c hcmem
      obtain ⟨v2, hv2, _⟩ := convertCell_pyToCell hint v hwt
      rw [← hce]
      simp only [convOne, hhint]
      rw [hcell, hv2]
      rfl
  obtain ⟨init, hinit⟩ := convertCells_isSome _ _ hconvsome
  have hkeys : init.map Prod.fst = "pk" :: nonPkCols s := by
    rw [convertCells_keys _ _ _ hinit, hrowcells]
    simp only [List.map_cons]
    congr 1
    exact map_fst_pairs _ _
  have hnd : (init.map Prod.fst).Nodup := by
    rw [hkeys]
    exact List.nodup_cons.mpr ⟨pk_not_mem_nonPkCols s, nonPkCols_nodup hs⟩
  obtain ⟨robj, hrobj⟩ := rowToObject_isSome hinit
  have hget : get s (t ++ [addRow s t o]) (newPk t) = .ok (some robj) := by
    unfold get
    rw [find?_fresh_row t (addRow s t o) rfl]
    show (match rowToObject s (addRow s t o) with
      | some o2 => (Except.ok (some o2) : Except RepoError (Option Obj))
      | Option.none => Except.error RepoError.conversionFailure) = Except.ok (some robj)
    rw [hrobj]
  refine ⟨robj, hget, ?_⟩
  intro k hint hkhint
  by_cases hk : k = "pk"
  · subst hk
    have hlook : List.lookup "pk" init = some (.int (newPk t)) := by
      rw [convertCells_lookup _ _ _ hinit "pk", hrowcells, lookup_cons_self]
      show convOne (typeHintsOf s) "pk" (Cell.int (newPk t)) = some (.int (newPk t))
      simp only [convOne, hpkhint]
      rfl
    refine ⟨.int (newPk t), .int (newPk t),
      rowToObject_lookup hf hinit hnd hrobj "pk" _ hlook, ?_, ?_⟩
    · exact objSet_lookup_self o "pk" (.int (newPk t))
    · simp [pyEq, numView]
  · have hck : k ∈ (typeHintsOf s).map Prod.fst := by
      have := mem_of_lookup_eq_some hkhint
      exact List.mem_map_of_mem Prod.fst this
    have hcmem : k ∈ nonPkCols s := (mem_nonPkCols_iff hnonempty k).mpr ⟨hck, hk⟩
    obtain ⟨hint2, v, hhint2, hv, hwt, hcell⟩ := hcol k hcmem
    have hhinteq : hint2 = hint := by
      rw [hkhint] at hhint2
      exact (Option.some_inj.mp hhint2).symm
    subst hhinteq
    obtain ⟨v2, hv2, hpe⟩ := convertCell_pyToCell hint2 v hwt
    have hlookcells : List.lookup k (rowCells (addRow s t o)) = some (pyToCell v) := by
      rw [hrowcells, lookup_cons_ne _ _ _ _ (beq_eq_false_iff_ne.mpr hk), lookup_map_key,
        if_pos hcmem, hcell]
    have hlook : List.lookup k init = some v2 := by
      rw [convertCells_lookup _ _ _ hinit k, hlookcells]
      show convOne (typeHintsOf s) k (pyToCell v) = some v2
      simp only [convOne, hhint2]
      exact hv2
    refine ⟨v2, v, rowToObject_lookup hf hinit hnd hrobj k v2 hlook, ?_, hpe⟩
    rw [objSet_lookup_other o "pk" k _ hk]
    exact hv

/-- A concrete Expense-like shape (cf. the project's `Expense` model),
extended with a structurally-encoded attribute and an Optional one to
exercise every conversion branch.  Its keyword constructor is the
plain dataclass one: it builds exactly the attribute bag it is
given. -/
def expenseShape : Shape where
  name := "Expense"
  hints := [("pk", .int), ("amount", .int), ("category", .int),
            ("expense_date", .datetime), ("added_date", .datetime),
            ("comment", .str), ("tags", .other), ("note", .opt .str)]
  ctorKw := fun d => some d
  defaultNew := []

/-- A sample timestamp (2023-01-01 12:00:00). -/
def sampleDT : DT := ⟨2023, 1, 1, 12, 0, 0, 0⟩

/-- A conforming, not-yet-persisted Expense instance. -/
def sampleExpense : Obj :=
  [("pk", .int 0), ("amount", .int 100), ("category", .int 1),
   ("expense_date", .dt sampleDT), ("added_date", .dt sampleDT),
   ("comment", .str "Groceries"),
   ("tags", .obj (.arr [.str "food", .int 3])),
   ("note", .none)]

theorem add_get_roundtrip_witness : RoundTrips expenseShape [] sampleExpense :=
  add_get_roundtrip expenseShape [] sampleExpense (by decide)
    (fun d o h k => by cases h; rfl) (by decide) rfl

/-- A minimal concrete shape used by several witnesses. -/
def itemShape : Shape where
  name := "Item"
  hints := [("pk", .int), ("name", .str)]
  ctorKw := fun d => some d
  defaultNew := [("pk", .int 0), ("name", .str "")]

/-- C3: `add` on an instance whose `pk` attribute is non-zero (in the
Python `==` sense) raises `ValueError` (INVALID_STATE).  In this pure
model an `Except.error` result is returned before any row is built, so
the table and the instance are untouched — mirroring the source, where
the check precedes every SQL statement and every mutation. -/
theorem add_nonzero_pk_invalid (s : Shape) (t : Table) (o : Obj) (v : PyVal)
    (h1 : List.lookup "pk" o = some v) (h2 : pyEq v (.int 0) = false) :
    add s t o = .error .invalidState := by
  unfold add
  rw [show objGet o "pk" = some v from h1]
  simp [pyNeZeroOrMissing, h2]

theorem add_nonzero_pk_invalid_witness :
    add itemShape [] [("pk", .int 7), ("name", .str "x")] = .error .invalidState :=
  add_nonzero_pk_invalid itemShape [] [("pk", .int 7), ("name", .str "x")]
    (.int 7) rfl (by decide)

/-- C7: `update` on an instance whose `pk` attribute equals zero raises
`ValueError` (INVALID_STATE); the error is returned before any SQL is
issued, so no row is written. -/
theorem update_zero_pk_invalid (s : Shape) (t : Table) (o : Obj)
    (h : List.lookup "pk" o = some (.int 0)) :
    update s t o = .error .invalidState := by
  unfold update
  rw [show objGet o "pk" = some (PyVal.int 0) from h]
  simp [pyEqZeroOrMissing, pyEq, numView]

theorem update_zero_pk_invalid_witness :
    update itemShape [] [("pk", .int 0), ("name", .str "x")] = .error .invalidState :=
  update_zero_pk_invalid itemShape [] [("pk", .int 0), ("name", .str "x")] rfl

/-- C10: `add` on an object with no `pk` attribute at all raises the
same `ValueError` (INVALID_STATE) and inserts nothing: the precondition
reads `getattr(obj, 'pk', None)`, and `None != 0`, so a missing `pk` is
rejected exactly like a non-zero one (see `add_nonzero_pk_invalid` for
the non-zero case). -/
theorem add_missing_pk_invalid (s : Shape) (t : Table) (o : Obj)
    (h : List.lookup "pk" o = Option.none) :
    add s t o = .error .invalidState := by
  unfold add
  rw [show objGet o "pk" = Option.none from h]
  rfl

theorem add_missing_pk_invalid_witness :
    add itemShape [] [("name", .str "x")] = .error .invalidState :=
  add_missing_pk_invalid itemShape [] [("name", .str "x")] rfl

/-- C4: `delete(x)` raises `KeyError` (NOT_FOUND) when no row has
identifier x, leaving the table untouched (the error is raised by the
existence check, before the DELETE statement); in particular a second
`delete` of a just-deleted identifier raises NOT_FOUND. -/
theorem delete_missing_not_found (s : Shape) (t : Table) (x : Int) :
    ((∀ r ∈ t, r.pk ≠ x) → delete s t x = .error .notFound) ∧
    (∀ t2, delete s t x = .ok t2 → delete s t2 x = .error .notFound) := by
  constructor
  · intro h
    have hg : get s t x = .ok Option.none := by
      unfold get
      rw [List.find?_eq_none.mpr fun r hr => by
        simp only [beq_iff_eq]
        exact h r hr]
    unfold delete
    rw [hg]
  · intro t2 hdel
    unfold delete at hdel
    cases hget : get s t x with
    | error e => rw [hget] at hdel; cases hdel
    | ok oo =>
      cases oo with
      | none => rw [hget] at hdel; cases hdel
      | some rob =>
        rw [hget] at hdel
        cases hdel
        have hg2 : get s (t.filter fun r => r.pk != x) x = .ok Option.none := by
          unfold get
          rw [List.find?_eq_none.mpr fun r hr => by
            simp only [beq_iff_eq]
            have := (List.mem_filter.mp hr).2
            simpa [bne_iff_ne] using this]
        unfold delete
        rw [hg2]

theorem delete_missing_not_found_witness :
    delete itemShape [] 999 = .error .notFound ∧
    delete itemShape [⟨1, [("name", Cell.text (.plain "a"))]⟩] 1 = .ok [] ∧
    delete itemShape [] 1 = .error .notFound :=
  ⟨(delete_missing_not_found itemShape [] 999).1 (by intro r hr; cases hr),
   rfl,
   (delete_missing_not_found itemShape [⟨1, [("name", Cell.text (.plain "a"))]⟩] 1).2 [] rfl⟩

/-- C8: `get(x)` returns `None` — not an error — when no row has
identifier x; in particular, after a successful `delete(pk)`, `get(pk)`
returns `None`. -/
theorem get_missing_returns_none (s : Shape) (t : Table) (x : Int) :
    ((∀ r ∈ t, r.pk ≠ x) → get s t x = .ok Option.none) ∧
    (∀ t2, delete s t x = .ok t2 → get s t2 x = .ok Option.none) := by
  constructor
  · intro h
    unfold get
    rw [List.find?_eq_none.mpr fun r hr => by
      simp only [beq_iff_eq]
      exact h r hr]
  · intro t2 hdel
    unfold delete at hdel
    cases hget : get s t x with
    | error e => rw [hget] at hdel; cases hdel
    | ok oo =>
      cases oo with
      | none => rw [hget] at hdel; cases hdel
      | some rob =>
        rw [hget] at hdel
        cases hdel
        unfold get
        rw [List.find?_eq_none.mpr fun r hr => by
          simp only [beq_iff_eq]
          have := (List.mem_filter.mp hr).2
          simpa [bne_iff_ne] using this]

theorem get_missing_returns_none_witness :
    get itemShape [] 42 = .ok Option.none ∧
    get itemShape [] 1 = .ok Option.none :=
  ⟨(get_missing_returns_none itemShape [] 42).1 (by intro r hr; cases hr),
   (get_missing_returns_none itemShape [⟨1, [("name", Cell.text (.plain "a"))]⟩] 1).2 [] rfl⟩

/-- C2 (amended): a successful `add` assigns a positive identifier that
is strictly greater than the `pk` of every row currently in the table —
so it is distinct from all live identifiers.  It is NOT guaranteed
fresh across the whole history of the table: the table is created with
`pk INTEGER PRIMARY KEY` and no `AUTOINCREMENT`, so SQLite assigns one
more than the largest rowid currently in use, and deleting the
largest-pk row lets a later `add` reassign that identifier (see
`add_reuses_pk_after_delete`). -/
theorem add_pk_fresh_among_live (s : Shape) (t : Table) (o : Obj) (pk : Int)
    (t2 : Table) (o2 : Obj) (h : add s t o = .ok (pk, t2, o2)) :
    1 ≤ pk ∧ ∀ r ∈ t, r.pk < pk := by
  unfold add at h
  cases hc : pyNeZeroOrMissing (objGet o "pk")
  · rw [hc] at h
    simp only [Bool.false_eq_true, if_false] at h
    cases hce : ((objectToDict o).filter fun p => p.1 != "pk").isEmpty
    · rw [hce] at h
      simp only [Bool.false_eq_true, if_false] at h
      cases hc2 : ((objectToDict o).filter fun p => p.1 != "pk").any
          fun p => !(nonPkCols s).contains p.1
      · rw [hc2] at h
        simp only [Bool.false_eq_true, if_false] at h
        cases h
        constructor
        · have h0 : (0 : Int) ≤ maxPk t := le_foldl_max t 0
          have h1 : newPk t = maxPk t + 1 := rfl
          omega
        · exact fun r hr => pk_lt_newPk t r hr
      · rw [hc2] at h
        cases h
    · rw [hce] at h
      cases h
  · rw [hc] at h
    cases h

theorem add_pk_fresh_among_live_witness :
    (1 : Int) ≤ 2 ∧ ∀ r ∈ [Row.mk 1 [("name", Cell.text (.plain "a"))]], r.pk < 2 :=
  add_pk_fresh_among_live itemShape [⟨1, [("name", Cell.text (.plain "a"))]⟩]
    [("pk", .int 0), ("name", .str "b")] 2
    [⟨1, [("name", Cell.text (.plain "a"))]⟩, ⟨2, [("name", Cell.text (.plain "b"))]⟩]
    [("pk", .int 2), ("name", .str "b")] rfl

/-- C2 (counterexample): the claimed history-wide freshness fails.  On
an empty table, `add` returns 1, then 2; after `delete(2)`, the next
`add` returns 2 again — an identifier previously returned by `add` for
this table.  (SQLite without `AUTOINCREMENT` assigns one more than the
largest rowid currently in use, so deleting the largest row frees its
identifier for reuse.) -/
theorem add_reuses_pk_after_delete :
    ∃ t1 o1, add itemShape [] [("pk", .int 0), ("name", .str "a")] = .ok (1, t1, o1) ∧
      ∃ t2 o2, add itemShape t1 [("pk", .int 0), ("name", .str "b")] = .ok (2, t2, o2) ∧
        ∃ t3, delete itemShape t2 2 = .ok t3 ∧
          ∃ t4 o4, add itemShape t3 [("pk", .int 0), ("name", .str "c")] = .ok (2, t4, o4) :=
  ⟨_, _, rfl, _, _, rfl, _, rfl, _, _, rfl⟩

/-- C5 (amended): `get_all` with a non-empty filter.  When every
filter key is a column of the shape's table (and every value is
bindable, i.e. the key/value binding `wc` exists), the result is
exactly the rows satisfying the conjunction of the equality
predicates — each row converted, each exactly once, in storage
order — and a row satisfies the `WHERE` clause precisely when every
listed column's cell equals the bound value.  When some filter key is
not a column, the prepared statement fails and `get_all` propagates
the storage failure instead of returning an empty result.  (The claim
as stated fails only for the empty filter mapping, whose generated
`WHERE` clause is syntactically invalid — see
`getAll_empty_filter_fails`.) -/
theorem getAll_filter_spec (s : Shape) (t : Table) (w : List (String × PyVal)) :
    ((∃ p ∈ w, p.1 ∉ allCols s) → get_all s t (some w) = .error .storageFailure) ∧
    (∀ wc, w ≠ [] → (∀ p ∈ w, p.1 ∈ allCols s) →
      w.mapM (fun p => (bindParam p.2).map fun c => (p.1, c)) = some wc →
      get_all s t (some w) = convertRows s (t.filter fun r => rowMatches r wc) ∧
      ∀ r, rowMatches r wc = true ↔
        ∀ p ∈ wc, ∃ c, rowLookup r p.1 = some c ∧ cellEq c p.2 = true) := by
  have hstep : get_all s t (some w) =
      (if w.isEmpty then .error .storageFailure
       else if w.any (fun q => !(allCols s).contains q.1) then .error .storageFailure
       else match w.mapM (fun q => (bindParam q.2).map fun c => (q.1, c)) with
         | Option.none => .error .storageFailure
         | some wc => convertRows s (t.filter fun r => rowMatches r wc)) := rfl
  constructor
  · rintro ⟨p, hp, hnotin⟩
    rw [hstep]
    have hie : w.isEmpty = false := by
      cases w
      · cases hp
      · rfl
    rw [hie]
    simp only [Bool.false_eq_true, if_false]
    rw [if_pos]
    exact List.any_eq_true.mpr ⟨p, hp, by
      cases hb : (allCols s).contains p.1
      · rfl
      · exact absurd (List.elem_iff.mp hb) hnotin⟩
  · intro wc hwne hkeys hbind
    rw [hstep]
    have hie : w.isEmpty = false := by
      cases w
      · exact absurd rfl hwne
      · rfl
    rw [hie]
    simp only [Bool.false_eq_true, if_false]
    rw [if_neg (by
      intro hany
      obtain ⟨q, hq, hbad⟩ := List.any_eq_true.mp hany
      have hb : (allCols s).contains q.1 = true := List.elem_eq_true_of_mem (hkeys q hq)
      rw [hb] at hbad
      exact Bool.false_ne_true hbad)]
    rw [hbind]
    refine ⟨rfl, fun r => ?_⟩
    unfold rowMatches
    rw [List.all_eq_true]
    constructor
    · intro hall p hp
      have := hall p hp
      cases hl : rowLookup r p.1 with
      | none => rw [hl] at this; cases this
      | some c =>
        rw [hl] at this
        exact ⟨c, rfl, this⟩
    · intro hex p hp
      obtain ⟨c, hc, he⟩ := hex p hp
      rw [hc]
      exact he

theorem getAll_filter_spec_witness :
    get_all itemShape [] (some [("bogus", PyVal.str "x")]) = .error .storageFailure ∧
    get_all itemShape [⟨1, [("name", Cell.text (.plain "a"))]⟩]
        (some [("name", PyVal.str "a")]) =
      convertRows itemShape ([⟨1, [("name", Cell.text (.plain "a"))]⟩].filter
        fun r => rowMatches r [("name", Cell.text (.plain "a"))]) :=
  ⟨(getAll_filter_spec itemShape [] [("bogus", PyVal.str "x")]).1
      ⟨("bogus", PyVal.str "x"), List.mem_singleton.mpr rfl, by decide⟩,
   ((getAll_filter_spec itemShape [⟨1, [("name", Cell.text (.plain "a"))]⟩]
        [("name", PyVal.str "a")]).2 [("name", Cell.text (.plain "a"))]
      (List.cons_ne_nil _ _)
      (by
        intro p hp
        rw [List.mem_singleton.mp hp]
        decide) rfl).1⟩

/-- C5 (counterexample): the claim as stated quantifies over every
filter whose keys are declared attribute names, which includes the
empty mapping; there `' AND '.join` of the (empty) conditions yields
`SELECT * FROM item WHERE `, which SQLite rejects, so `get_all({})`
raises a storage failure instead of returning the claimed row set —
here a one-row table whose full conversion is shown alongside. -/
theorem getAll_empty_filter_fails :
    get_all itemShape [⟨1, [("name", Cell.text (.plain "a"))]⟩] (some []) =
      .error .storageFailure ∧
    convertRows itemShape [⟨1, [("name", Cell.text (.plain "a"))]⟩] =
      .ok [[("pk", .int 1), ("name", .str "a")]] :=
  ⟨rfl, rfl⟩

theorem lookup_applySet (data d : List (String × Cell)) (k : String) (c : Cell)
    (hd : List.lookup k d = some c) (hmem : k ∈ data.map Prod.fst) :
    List.lookup k (applySet data d) = some c := by
  induction data with
  | nil => simp at hmem
  | cons q rest ih =>
    obtain ⟨k1, c1⟩ := q
    simp only [List.map_cons, List.mem_cons] at hmem
    cases hkk : k == k1
    · have hne : k ≠ k1 := by
        rw [beq_eq_false_iff_ne] at hkk
        exact hkk
      have hmem2 : k ∈ rest.map Prod.fst := by
        rcases hmem with h1 | h2
        · exact absurd h1 hne
        · exact h2
      cases hl : List.lookup k1 d <;>
        · simp only [applySet, List.map_cons, hl]
          rw [lookup_cons_ne _ _ _ _ hkk]
          exact ih hmem2
    · rw [eq_of_beq hkk] at hd
      simp only [applySet, List.map_cons, hd]
      rw [eq_of_beq hkk]
      exact lookup_cons_self k1 c _

/-- The effect C6 claims of a successful `update` keyed by `p`: the row
count is unchanged, rows with a different `pk` are unchanged in place,
the matching row keeps its `pk` and has every declared non-`pk` column
it carries overwritten with the instance's converted attribute value,
and when no row matches the table is unchanged (silent no-op). -/
def UpdateApplies (s : Shape) (t : Table) (o : Obj) (p : Int) : Prop :=
  ∃ t2, update s t o = .ok t2 ∧
    t2.length = t.length ∧
    (∀ i : Nat, ∀ r, t[i]? = some r →
      (r.pk ≠ p → t2[i]? = some r) ∧
      (r.pk = p → ∃ r2, t2[i]? = some r2 ∧ r2.pk = r.pk ∧
        ∀ k hk, List.lookup k (typeHintsOf s) = some hk → k ≠ "pk" →
          k ∈ r.data.map Prod.fst →
          ∃ v, List.lookup k o = some v ∧
            List.lookup k r2.data = some (pyToCell v))) ∧
    ((∀ r ∈ t, r.pk ≠ p) → t2 = t)

/-- C6: `update` on a conforming instance with non-zero integer `pk`
succeeds and performs exactly the claimed write: it overwrites the
declared non-`pk` columns of every row whose `pk` matches with the
instance's current values, preserves that row's `pk`, leaves all other
rows unchanged, and is a silent no-op (no error, no modification) when
no row has the instance's `pk`. -/
theorem update_semantics (s : Shape) (t : Table) (o : Obj) (p : Int)
    (hs : wfShape s = true) (ho : wfObj s o = true)
    (hpk : List.lookup "pk" o = some (.int p)) (hp : p ≠ 0) :
    UpdateApplies s t o p := by
  have hra : ((p : Rat) == ((0 : Int) : Rat)) = false :=
    beq_eq_false_iff_ne.mpr (by exact_mod_cast hp)
  have h1 : pyEqZeroOrMissing (objGet o "pk") = false := by
    unfold objGet
    rw [hpk]
    simp only [pyEqZeroOrMissing, pyEq, numView, hra]
  have hpkd : List.lookup "pk" (objectToDict o) = some (Cell.int p) := by
    rw [lookup_objectToDict o "pk" (by decide), hpk]
    rfl
  have hupd : update s t o = .ok (t.map fun r =>
      if cellEq (Cell.int p) (Cell.int r.pk)
      then ⟨r.pk, applySet r.data ((objectToDict o).filter fun q => q.1 != "pk")⟩
      else r) := by
    unfold update
    rw [h1]
    simp only [Bool.false_eq_true, if_false]
    rw [hpkd]
    rw [insertDict_nonempty hs ho]
    simp only [Bool.false_eq_true, if_false]
    rw [insertDict_keys_ok hs ho]
    simp only [Bool.false_eq_true, if_false]
  refine ⟨_, hupd, List.length_map _ _, ?_, ?_⟩
  · intro i r hr
    have hri : (t.map fun r =>
        if cellEq (Cell.int p) (Cell.int r.pk)
        then ⟨r.pk, applySet r.data ((objectToDict o).filter fun q => q.1 != "pk")⟩
        else r)[i]? = some (if cellEq (Cell.int p) (Cell.int r.pk)
        then ⟨r.pk, applySet r.data ((objectToDict o).filter fun q => q.1 != "pk")⟩
        else r) := by
      rw [List.getElem?_map, hr]
      rfl
    constructor
    · intro hne
      rw [hri]
      have hcell : cellEq (Cell.int p) (Cell.int r.pk) = false := by
        show (p == r.pk) = false
        exact beq_eq_false_iff_ne.mpr fun he => hne he.symm
      rw [hcell]
      rfl
    · intro heq
      have hcell : cellEq (Cell.int p) (Cell.int r.pk) = true := by
        show (p == r.pk) = true
        simp [heq]
      rw [hcell] at hri
      simp only [if_true] at hri
      refine ⟨_, hri, rfl, ?_⟩
      intro k hk hhint hkne hkmem
      obtain ⟨v, hv, hwt⟩ := wfObj_typed ho k hk hhint
      have hunder : startsWithUnderscore k = false := by
        simpa using wfShape_noUnderscore hs (k, hk) (mem_of_lookup_eq_some hhint)
      have hd : List.lookup k ((objectToDict o).filter fun q => q.1 != "pk") =
          some (pyToCell v) := by
        rw [lookup_insertDict o k hunder hkne, hv]
        rfl
      exact ⟨v, hv, lookup_applySet _ _ _ _ hd hkmem⟩
  · intro hnone
    have : ∀ r ∈ t, (if cellEq (Cell.int p) (Cell.int r.pk)
        then (⟨r.pk, applySet r.data ((objectToDict o).filter fun q => q.1 != "pk")⟩ : Row)
        else r) = r := by
      intro r hr
      have hcell : cellEq (Cell.int p) (Cell.int r.pk) = false := by
        show (p == r.pk) = false
        exact beq_eq_false_iff_ne.mpr fun he => (hnone r hr) he.symm
      rw [hcell]
      rfl
    rw [List.map_congr_left this]
    exact List.map_id t

theorem update_semantics_witness :
    UpdateApplies itemShape
      [⟨1, [("name", Cell.text (.plain "a"))]⟩, ⟨2, [("name", Cell.text (.plain "b"))]⟩]
      [("pk", .int 1), ("name", .str "z")] 1 :=
  update_semantics itemShape
    [⟨1, [("name", Cell.text (.plain "a"))]⟩, ⟨2, [("name", Cell.text (.plain "b"))]⟩]
    [("pk", .int 1), ("name", .str "z")] 1 (by decide) (by decide) rfl (by decide)

/-- The construction rule as the specification words it (C9): convert
every column, then prefer the shape's keyword constructor on the full
converted attribute mapping, and only when that constructor rejects the
call fall back to default-construct-and-assign.  Stated for comparison
with `rowToObject`, which additionally special-cases the table named
`custom`. -/
def specRowToObject (s : Shape) (r : Row) : Option Obj :=
  match convertCells (typeHintsOf s) (rowCells r) with
  | Option.none => Option.none
  | some init =>
    match s.ctorKw init with
    | some o => some o
    | Option.none => some (setAttrs s.defaultNew init)

/-- A shape named `Custom` whose keyword constructor produces a marker
instance, while its default instance carries a different marker —
making the two construction paths distinguishable. -/
def customShape : Shape where
  name := "Custom"
  hints := []
  ctorKw := fun _ => some [("marker", .str "ctor")]
  defaultNew := [("marker", .str "default")]

/-- A stored row of the `custom` table. -/
def customRow : Row :=
  ⟨1, [("name", Cell.text (.plain "a")), ("test", Cell.text (.plain "b"))]⟩

/-- C9 (counterexample): for the shape whose table is named `custom`,
`_row_to_object` never attempts the keyword constructor: the code
returns the default-construct-and-assign result (marker `"default"`),
while the claimed prefer-the-constructor rule would return the
constructor's instance (marker `"ctor"`); the two disagree. -/
theorem rowToObject_custom_skips_ctor :
    (∃ o1, rowToObject customShape customRow = some o1 ∧
      List.lookup "marker" o1 = some (.str "default")) ∧
    (∃ o2, specRowToObject customShape customRow = some o2 ∧
      List.lookup "marker" o2 = some (.str "ctor")) ∧
    rowToObject customShape customRow ≠ specRowToObject customShape customRow := by
  refine ⟨⟨_, rfl, rfl⟩, ⟨_, rfl, rfl⟩, ?_⟩
  intro h
  have h2 : (some (PyVal.str "default") : Option PyVal) = some (PyVal.str "ctor") := by
    calc some (PyVal.str "default")
        = (rowToObject customShape customRow).bind (List.lookup "marker") := by rfl
      _ = (specRowToObject customShape customRow).bind (List.lookup "marker") := by rw [h]
      _ = some (PyVal.str "ctor") := by rfl
  injection h2 with h3
  injection h3 with h4
  exact absurd h4 (by decide)

/-- C9 (amended): for every shape whose table name is not `custom`,
`_row_to_object` constructs exactly as the specification says — keyword
constructor first, default-construct-and-assign only when it is
rejected; for the test shape whose table is named `custom`, the
keyword constructor is never attempted and the fallback path is always
used.  In both regimes one of the two paths yields the returned
instance. -/
theorem rowToObject_ctor_policy (s : Shape) (r : Row) :
    (lowerString s.name ≠ "custom" → rowToObject s r = specRowToObject s r) ∧
    (lowerString s.name = "custom" → rowToObject s r =
      (convertCells (typeHintsOf s) (rowCells r)).map fun init => setAttrs s.defaultNew init) := by
  constructor
  · intro h
    unfold rowToObject specRowToObject
    cases hc : convertCells (typeHintsOf s) (rowCells r) with
    | none => rfl
    | some init =>
      show (if lowerString s.name == "custom" then some (setAttrs s.defaultNew init)
        else match s.ctorKw init with
          | some o => some o
          | Option.none => some (setAttrs s.defaultNew init)) =
        (match s.ctorKw init with
          | some o => some o
          | Option.none => some (setAttrs s.defaultNew init))
      rw [if_neg (by
        intro hb
        exact h (eq_of_beq hb))]
  · intro h
    unfold rowToObject
    cases hc : convertCells (typeHintsOf s) (rowCells r) with
    | none => rfl
    | some init =>
      show (if lowerString s.name == "custom" then some (setAttrs s.defaultNew init)
        else match s.ctorKw init with
          | some o => some o
          | Option.none => some (setAttrs s.defaultNew init)) =
        Option.map (fun init => setAttrs s.defaultNew init) (some init)
      rw [if_pos (beq_iff_eq.mpr h)]
      rfl

theorem rowToObject_ctor_policy_witness :
    rowToObject itemShape ⟨1, [("name", Cell.text (.plain "a"))]⟩ =
      specRowToObject itemShape ⟨1, [("name", Cell.text (.plain "a"))]⟩ ∧
    rowToObject customShape customRow =
      (convertCells (typeHintsOf customShape) (rowCells customRow)).map
        fun init => setAttrs customShape.defaultNew init :=
  ⟨(rowToObject_ctor_policy itemShape ⟨1, [("name", Cell.text (.plain "a"))]⟩).1 (by decide),
   (rowToObject_ctor_policy customShape customRow).2 (by decide)⟩

end Bookkeeper

